import Mathlib

/-!
Shallow embedding of the pairs-trading discovery core
(`src/data/data_manager.py`, `src/analysis/statistical.py`,
`src/analysis/pairs_finder.py`; `main.py` repeats the same logic).

Price values are modelled as `Option ℚ` (`none` is pandas NaN), timestamps
as `Nat`.  The external statistical routines (`statsmodels.coint`,
`statsmodels.adfuller`) and the square root used by `pandas.Series.std`
are not repository code; they enter as an abstract `StatsEnv` of oracle
functions that may fail (raise).  The OLS regression through the origin on
a single regressor is deterministic and is embedded explicitly
(`olsCoef`).
-/

deriving instance DecidableEq for Except

set_option maxRecDepth 100000

namespace PairsBot

/-- A pandas Series restricted to one column: ordered (timestamp, value)
rows, `none` standing for NaN. -/
abbrev PSeries := List (Nat × Option ℚ)

/-- A pandas DataFrame: a column-name list and timestamped rows, each row
assigning an optional (NaN-able) value to every column name. -/
structure Frame where
  cols : List String
  rows : List (Nat × (String → Option ℚ))

/-- Embeds `DataFrame.empty` from `fetch_stock_data`'s `if not data.empty`. -/
def Frame.isEmptyFrame (f : Frame) : Bool :=
  f.rows.isEmpty

/-- Embeds `DataFrame.dropna()`: drop every row that has a NaN in any column. -/
def Frame.dropna (f : Frame) : Frame :=
  ⟨f.cols, f.rows.filter (fun r => f.cols.all (fun c => (r.2 c).isSome))⟩

/-- Column extraction `data[price_type]` on a DataFrame. -/
def Frame.col (f : Frame) (c : String) : PSeries :=
  f.rows.map (fun tr => (tr.1, tr.2 c))

/-- Embeds `pd.concat([price1, price2], axis=1).dropna()` for two series with
strictly increasing timestamp indexes: keep exactly the timestamps present
in both series with a non-NaN value on both sides, in order. -/
def alignSeries (p1 p2 : PSeries) : List (Nat × ℚ × ℚ) :=
  p1.filterMap (fun tv =>
    match tv.2, p2.lookup tv.1 with
    | some v1, some (some v2) => some (tv.1, v1, v2)
    | _, _ => none)

/-- The oracle environment for the external statistical library calls. -/
structure StatsEnv where
  coint : List ℚ → List ℚ → Except String ℚ
  adfuller : List ℚ → Except String ℚ
  sqrt : ℚ → ℚ

/-- Embeds `OLS(y, x).fit().params[0]` for a single regressor and no intercept:
the least-squares coefficient through the origin.  (statsmodels uses the
pseudoinverse, which yields `0` when `x` is identically zero, matching
rational division by zero.) -/
def olsCoef (y x : List ℚ) : ℚ :=
  (List.zipWith (fun xi yi => xi * yi) x y).sum / (x.map (fun xi => xi ^ 2)).sum

/-- Embeds `spread = y - hedge_ratio * x`, elementwise over two equal-length
series. -/
def residualSpread (y x : List ℚ) (b : ℚ) : List ℚ :=
  List.zipWith (fun yi xi => yi - b * xi) y x

/-- Embeds `StatisticalAnalyzer.test_cointegration`.  Aligns the two series,
returns the sentinel `(1.0, 0.0, 1.0)` below 30 aligned observations, and
otherwise runs the cointegration test, the OLS hedge ratio, and the ADF
test on the residual spread.  Failures of the external routines propagate
as `Except.error`. -/
def test_cointegration (env : StatsEnv) (price1 price2 : PSeries) :
    Except String (ℚ × ℚ × ℚ) :=
  let aligned := alignSeries price1 price2
  if aligned.length < 30 then
    Except.ok (1, 0, 1)
  else
    let y := aligned.map (fun a => a.2.1)
    let x := aligned.map (fun a => a.2.2)
    match env.coint y x with
    | Except.error e => Except.error e
    | Except.ok coint_pvalue =>
      let hedge_ratio := olsCoef y x
      let spread := residualSpread y x hedge_ratio
      match env.adfuller spread with
      | Except.error e => Except.error e
      | Except.ok adf_pvalue => Except.ok (coint_pvalue, hedge_ratio, adf_pvalue)

/-- Embeds `pandas.Series.mean()`: the arithmetic mean. -/
def listMean (l : List ℚ) : ℚ :=
  l.sum / l.length

/-- Embeds what `pandas.Series.std()` takes the square root of: the sample variance with
`ddof = 1`. -/
def sampleVar (l : List ℚ) : ℚ :=
  (l.map (fun xi => (xi - listMean l) ^ 2)).sum / (l.length - 1 : ℕ)

/-- Embeds `pandas.Series.std()`: square root of the sample variance, the root
taken by the oracle environment. -/
def sampleStd (env : StatsEnv) (l : List ℚ) : ℚ :=
  env.sqrt (sampleVar l)

/-- Embeds `StatisticalAnalyzer.calculate_spread_stats`: re-align the two series,
form the residual spread for the given hedge ratio, and return its mean
and sample standard deviation. -/
def calculate_spread_stats (env : StatsEnv) (price1 price2 : PSeries)
    (hedge_ratio : ℚ) : ℚ × ℚ :=
  let aligned := alignSeries price1 price2
  let y := aligned.map (fun a => a.2.1)
  let x := aligned.map (fun a => a.2.2)
  let spread := residualSpread y x hedge_ratio
  (listMean spread, sampleStd env spread)

/-- The residual series computed inside `test_cointegration`'s ADF step:
the aligned series' residual under the OLS hedge ratio. -/
def testSpread (p1 p2 : PSeries) : List ℚ :=
  let aligned := alignSeries p1 p2
  let y := aligned.map (fun a => a.2.1)
  let x := aligned.map (fun a => a.2.2)
  residualSpread y x (olsCoef y x)

/-- Embeds `DataManager`: the date window and the symbol-to-DataFrame store
(`self.data`, a Python dict modelled as an insertion-ordered association
list). -/
structure DataManager where
  start_date : String
  end_date : String
  data : List (String × Frame)

/-- Embeds `DataManager.__init__`: store the dates, start with an empty dict. -/
def DataManager.init (s e : String) : DataManager :=
  ⟨s, e, []⟩

/-- Python dict membership `symbol in self.data`. -/
def hasSym (d : List (String × Frame)) (s : String) : Bool :=
  d.any (fun p => p.1 == s)

/-- Python dict read `self.data[symbol]` (as an option). -/
def lookupData (d : List (String × Frame)) (s : String) : Option Frame :=
  (d.find? (fun p => p.1 == s)).map (fun p => p.2)

/-- Python dict assignment `self.data[symbol] = frame`: overwrite in place
when the key exists, append otherwise. -/
def storeEntry (d : List (String × Frame)) (s : String) (f : Frame) :
    List (String × Frame) :=
  if hasSym d s then d.map (fun p => if p.1 == s then (s, f) else p)
  else d ++ [(s, f)]

/-- The external market-data provider (`yfinance.Ticker(symbol).history`):
either a DataFrame, possibly empty, or a raised exception. -/
abbrev Provider := String → Except String Frame

/-- One iteration of `fetch_stock_data`'s loop body for one symbol: fetch,
and on success with a non-empty frame store the NaN-dropped frame; an
exception or an empty frame leaves the store unchanged. -/
def fetchOne (provider : Provider) (d : List (String × Frame)) (symbol : String) :
    List (String × Frame) :=
  match provider symbol with
  | Except.error _ => d
  | Except.ok data => if data.isEmptyFrame then d else storeEntry d symbol data.dropna

/-- Embeds `DataManager.fetch_stock_data`: loop over the symbols accumulating into
`self.data`, then return `self.data` itself (the whole accumulated dict).
The second component is the returned mapping. -/
def DataManager.fetch_stock_data (provider : Provider) (mgr : DataManager)
    (symbols : List String) : DataManager × List (String × Frame) :=
  let d := symbols.foldl (fetchOne provider) mgr.data
  (⟨mgr.start_date, mgr.end_date, d⟩, d)

/-- The default column argument of `get_price_series`. -/
def closeCol : String := "Close"

/-- The message of the `ValueError` that `get_price_series` raises for an
unknown symbol. -/
def notFoundMsg (symbol : String) : String :=
  "Data for " ++ symbol ++ " not found. Please fetch data first."

/-- Embeds `DataManager.get_price_series`: the requested column of the stored
frame when the symbol is present, otherwise the raised `ValueError`
(the spec's `SymbolNotFoundError`).  The second component is the manager
after the call. -/
def DataManager.get_price_series (mgr : DataManager) (symbol : String)
    (price_type : String) : Except String PSeries × DataManager :=
  match lookupData mgr.data symbol with
  | some f => (Except.ok (f.col price_type), mgr)
  | none => (Except.error (notFoundMsg symbol), mgr)

/-- Embeds `TradingPair`, the emitted pair record. -/
structure TradingPair where
  symbol1 : String
  symbol2 : String
  hedge_ratio : ℚ
  cointegration_pvalue : ℚ
  adf_pvalue : ℚ
  spread_mean : ℚ
  spread_std : ℚ
deriving DecidableEq, Repr

/-- Embeds `PairsFinder`: holds the data manager and the two thresholds. -/
structure PairsFinder where
  data_manager : DataManager
  cointegration_threshold : ℚ
  adf_threshold : ℚ

/-- Embeds `PairsFinder.__init__`: store the data manager and thresholds.  No
validation of any kind is performed. -/
def PairsFinder.init (dm : DataManager) (c a : ℚ) : PairsFinder :=
  ⟨dm, c, a⟩

/-- The (unreachable) default for list indexing inside the enumeration
loop; every index used is in range. -/
def defaultSym : String := ""

/-- The body of `find_pairs`' per-pair `try` block: fetch both price
series, run the cointegration test, and when both p-values pass their
thresholds compute the spread statistics and build the `TradingPair`.
`Except.error` is any exception escaping the block. -/
def evalPairBody (env : StatsEnv) (pf : PairsFinder) (symbol1 symbol2 : String) :
    Except String (Option TradingPair) :=
  match (pf.data_manager.get_price_series symbol1 closeCol).1 with
  | Except.error e => Except.error e
  | Except.ok price1 =>
    match (pf.data_manager.get_price_series symbol2 closeCol).1 with
    | Except.error e => Except.error e
    | Except.ok price2 =>
      match test_cointegration env price1 price2 with
      | Except.error e => Except.error e
      | Except.ok (coint_pvalue, hedge_ratio, adf_pvalue) =>
        if coint_pvalue ≤ pf.cointegration_threshold ∧ adf_pvalue ≤ pf.adf_threshold then
          let stats := calculate_spread_stats env price1 price2 hedge_ratio
          Except.ok (some ⟨symbol1, symbol2, hedge_ratio, coint_pvalue, adf_pvalue,
            stats.1, stats.2⟩)
        else
          Except.ok none

/-- The per-pair `try ... except Exception: continue`: an exception skips
the pair. -/
def tryPair (env : StatsEnv) (pf : PairsFinder) (symbol1 symbol2 : String) :
    Option TradingPair :=
  match evalPairBody env pf symbol1 symbol2 with
  | Except.ok r => r
  | Except.error _ => none

/-- Embeds `PairsFinder.find_pairs`: the nested loop `for i in range(n): for j in
range(i + 1, n)`, appending each accepted pair to the accumulator
`valid_pairs`. -/
def find_pairs (env : StatsEnv) (pf : PairsFinder) (symbols : List String) :
    List TradingPair :=
  (List.range symbols.length).foldl (fun acc i =>
    (List.range' (i + 1) (symbols.length - (i + 1))).foldl (fun acc2 j =>
      acc2 ++ (tryPair env pf (symbols.getD i defaultSym) (symbols.getD j defaultSym)).toList)
      acc) []

/-- The index pairs `(i, j)` with `i < j < n` in the order the nested loop
visits them. -/
def pairIndices (n : Nat) : List (Nat × Nat) :=
  (List.range n).flatMap (fun i => (List.range' (i + 1) (n - (i + 1))).map (fun j => (i, j)))

/-- The per-pair evaluation at an index pair, as `find_pairs` performs it. -/
def tryPairAt (env : StatsEnv) (pf : PairsFinder) (symbols : List String)
    (ij : Nat × Nat) : Option TradingPair :=
  tryPair env pf (symbols.getD ij.1 defaultSym) (symbols.getD ij.2 defaultSym)

/-- Strict lexicographic order on index pairs: the order in which the
nested loop visits them. -/
def pairLexLt (p q : Nat × Nat) : Prop :=
  p.1 < q.1 ∨ (p.1 = q.1 ∧ p.2 < q.2)

/-- A fold that appends the optional result per element is `filterMap`
appended to the accumulator. -/
lemma foldl_push_filterMap {α β : Type} (f : α → Option β) (l : List α)
    (acc : List β) :
    l.foldl (fun a x => a ++ (f x).toList) acc = acc ++ l.filterMap f := by
  induction l generalizing acc with
  | nil => simp
  | cons x xs ih =>
    rw [List.foldl_cons, List.filterMap_cons]
    cases h : f x with
    | none => simp only [h, Option.toList_none, List.append_nil]; rw [ih]
    | some p => simp only [h, Option.toList_some]; rw [ih]; simp

/-- A fold that appends a block per element is the concatenation of the
blocks appended to the accumulator. -/
lemma foldl_append_blocks {α β : Type} (g : α → List β) (l : List α)
    (acc : List β) :
    l.foldl (fun a x => a ++ g x) acc = acc ++ l.flatMap g := by
  induction l generalizing acc with
  | nil => simp
  | cons x xs ih =>
    rw [List.foldl_cons, List.flatMap_cons, ih, List.append_assoc]

/-- The nested loop of `find_pairs` is `filterMap` of the per-pair
evaluation over the index-pair enumeration. -/
lemma find_pairs_eq (env : StatsEnv) (pf : PairsFinder) (symbols : List String) :
    find_pairs env pf symbols
      = (pairIndices symbols.length).filterMap (tryPairAt env pf symbols) := by
  unfold find_pairs pairIndices
  have inner : ∀ (i : Nat) (acc : List TradingPair),
      (List.range' (i + 1) (symbols.length - (i + 1))).foldl
        (fun acc2 j =>
          acc2 ++ (tryPair env pf (symbols.getD i defaultSym) (symbols.getD j defaultSym)).toList)
        acc
        = acc ++ (List.range' (i + 1) (symbols.length - (i + 1))).filterMap
            (fun j => tryPair env pf (symbols.getD i defaultSym) (symbols.getD j defaultSym)) := by
    intro i acc
    exact foldl_push_filterMap
      (fun j => tryPair env pf (symbols.getD i defaultSym) (symbols.getD j defaultSym)) _ acc
  simp only [inner]
  rw [foldl_append_blocks
    (fun i => (List.range' (i + 1) (symbols.length - (i + 1))).filterMap
      (fun j => tryPair env pf (symbols.getD i defaultSym) (symbols.getD j defaultSym)))
    (List.range symbols.length) []]
  rw [List.nil_append, List.filterMap_flatMap]
  congr 1
  funext i
  rw [List.filterMap_map]
  rfl

/-- Index-pair enumeration membership: exactly the pairs `i < j < n`. -/
lemma pairIndices_mem (n i j : ℕ) : (i, j) ∈ pairIndices n ↔ i < j ∧ j < n := by
  unfold pairIndices
  simp only [List.mem_flatMap, List.mem_map, List.mem_range, List.mem_range'_1,
    Prod.mk.injEq]
  constructor
  · rintro ⟨a, ha, b, hb, rfl, rfl⟩
    omega
  · rintro ⟨hij, hjn⟩
    exact ⟨i, by omega, j, by omega, rfl, rfl⟩

/-- Index-pair enumeration size: `n * (n - 1) / 2` pairs. -/
lemma pairIndices_length (n : ℕ) : (pairIndices n).length = n * (n - 1) / 2 := by
  unfold pairIndices
  rw [List.length_flatMap]
  have h1 : List.map
        (List.length ∘ fun i => (List.range' (i + 1) (n - (i + 1))).map (fun j => (i, j)))
        (List.range n)
      = List.map (fun i => n - 1 - i) (List.range n) := by
    apply List.map_congr_left
    intro a _
    simp only [Function.comp_apply, List.length_map, List.length_range']
    omega
  rw [h1]
  have h2 : (List.map (fun i => n - 1 - i) (List.range n)).sum
      = ∑ i ∈ Finset.range n, (n - 1 - i) := rfl
  rw [h2, Finset.sum_range_reflect (fun i => i) n, Finset.sum_range_id]

/-- Index-pair enumeration order: strictly increasing in the loop order. -/
lemma pairIndices_pairwise (n : ℕ) : (pairIndices n).Pairwise pairLexLt := by
  unfold pairIndices
  rw [List.pairwise_flatMap]
  constructor
  · intro a _
    rw [List.pairwise_map]
    exact (List.pairwise_lt_range' (a + 1) (n - (a + 1))).imp
      (fun h => Or.inr ⟨rfl, h⟩)
  · refine (List.pairwise_lt_range n).imp ?_
    intro a b hab x hx y hy
    obtain ⟨jx, _, rfl⟩ := List.mem_map.mp hx
    obtain ⟨jy, _, rfl⟩ := List.mem_map.mp hy
    exact Or.inl hab

/-- Claim C1: whenever the aligned (common-timestamp, NaN-dropped)
observation count of the two series is below the code's `min_observations`
constant 30, `test_cointegration` returns exactly the sentinel triple
`(1.0, 0.0, 1.0)` — no error is raised and the series' values are
irrelevant. -/
theorem test_cointegration_sentinel (env : StatsEnv) (p1 p2 : PSeries)
    (h : (alignSeries p1 p2).length < 30) :
    test_cointegration env p1 p2 = Except.ok (1, 0, 1) := by
  unfold test_cointegration
  rw [if_pos h]

/-- First column of the aligned pair, `aligned_data.iloc[:, 0]`. -/
def alignedY (p1 p2 : PSeries) : List ℚ :=
  (alignSeries p1 p2).map (fun a => a.2.1)

/-- Second column of the aligned pair, `aligned_data.iloc[:, 1]`. -/
def alignedX (p1 p2 : PSeries) : List ℚ :=
  (alignSeries p1 p2).map (fun a => a.2.2)

/-- Concrete-fixture symbol names. -/
def symA : String := "A"

/-- Concrete-fixture symbol name B. -/
def symB : String := "B"

/-- Concrete-fixture symbol name C. -/
def symC : String := "C"

/-- Concrete-fixture symbol name Z. -/
def symZ : String := "Z"

/-- A concrete oracle environment: the cointegration test always reports
p-value 1/100, the ADF test 1/50, and the square root is left symbolic
(identity). -/
def oracleEnv : StatsEnv :=
  ⟨fun _ _ => Except.ok (1 / 100), fun _ => Except.ok (1 / 50), fun q => q⟩

/-- A 30-observation price series with value `t + 1` at timestamp `t`. -/
def seriesA : PSeries :=
  (List.range 30).map (fun t => (t, some ((t : ℚ) + 1)))

/-- A 30-observation price series with value `t + 1 + (t mod 2)` at
timestamp `t`; not collinear with `seriesA`. -/
def seriesB : PSeries :=
  (List.range 30).map (fun t => (t, some ((t : ℚ) + 1 + ((t % 2 : ℕ) : ℚ))))

/-- A three-observation series overlapping `shortSeries2` on two
timestamps. -/
def shortSeries1 : PSeries :=
  [(0, some 1), (1, some 2), (2, some 3)]

/-- A three-observation series overlapping `shortSeries1` on two
timestamps. -/
def shortSeries2 : PSeries :=
  [(1, some 5), (2, some 7), (3, some 9)]

/-- Build a single-column DataFrame holding the given price series under
the Close column. -/
def closeFrame (vals : PSeries) : Frame :=
  ⟨[closeCol], vals.map (fun tv => (tv.1, fun c => if c == closeCol then tv.2 else none))⟩

/-- The fixture frame for symbol A. -/
def frameA : Frame := closeFrame seriesA

/-- The fixture frame for symbol B. -/
def frameB : Frame := closeFrame seriesB

/-- A fixture manager holding data for symbols A and B only. -/
def mgrAB : DataManager :=
  ⟨"2019-01-01", "2024-01-01", [(symA, frameA), (symB, frameB)]⟩

/-- A finder whose thresholds sit exactly on the oracle's p-values. -/
def pfBoundary : PairsFinder :=
  PairsFinder.init mgrAB (1 / 100) (1 / 50)

/-- Witness for C1: two concrete series with only 2 aligned observations
get the sentinel triple. -/
theorem test_cointegration_sentinel_witness :
    (alignSeries shortSeries1 shortSeries2).length < 30
    ∧ test_cointegration oracleEnv shortSeries1 shortSeries2 = Except.ok (1, 0, 1) :=
  ⟨by decide, test_cointegration_sentinel oracleEnv shortSeries1 shortSeries2 (by decide)⟩

/-- A successful `test_cointegration` call above the observation floor
returns the OLS hedge ratio, the oracle cointegration p-value, and the
oracle ADF p-value of the residual spread. -/
lemma test_cointegration_ok_parts (env : StatsEnv) (p1 p2 : PSeries)
    (cp b ap : ℚ) (hlen : ¬ (alignSeries p1 p2).length < 30)
    (h : test_cointegration env p1 p2 = Except.ok (cp, b, ap)) :
    b = olsCoef (alignedY p1 p2) (alignedX p1 p2)
    ∧ env.coint (alignedY p1 p2) (alignedX p1 p2) = Except.ok cp
    ∧ env.adfuller (testSpread p1 p2) = Except.ok ap := by
  simp only [test_cointegration] at h
  rw [if_neg hlen] at h
  split at h
  · exact absurd h (by simp)
  · rename_i cp1 hc
    split at h
    · exact absurd h (by simp)
    · rename_i ap1 ha
      rw [Except.ok.injEq, Prod.mk.injEq, Prod.mk.injEq] at h
      obtain ⟨h1, h2, h3⟩ := h
      subst h1; subst h2; subst h3
      exact ⟨rfl, hc, ha⟩

/-- Claim C2: `calculate_spread_stats` computes the mean and sample
standard deviation of exactly the residual `y - hedge_ratio * x` over the
same alignment as `test_cointegration`, for every pair of series and every
hedge ratio; and for a pair accepted with hedge ratio `b`, those record
statistics are the mean/std of the very residual series the ADF step ran
on. -/
theorem spread_stats_use_test_residual (env : StatsEnv) (p1 p2 : PSeries)
    (cp b ap : ℚ) (hlen : ¬ (alignSeries p1 p2).length < 30)
    (h : test_cointegration env p1 p2 = Except.ok (cp, b, ap)) :
    (∀ b' : ℚ, calculate_spread_stats env p1 p2 b'
        = (listMean (residualSpread (alignedY p1 p2) (alignedX p1 p2) b'),
           sampleStd env (residualSpread (alignedY p1 p2) (alignedX p1 p2) b')))
    ∧ b = olsCoef (alignedY p1 p2) (alignedX p1 p2)
    ∧ env.adfuller (testSpread p1 p2) = Except.ok ap
    ∧ calculate_spread_stats env p1 p2 b
        = (listMean (testSpread p1 p2), sampleStd env (testSpread p1 p2)) := by
  obtain ⟨hb, _, ha⟩ := test_cointegration_ok_parts env p1 p2 cp b ap hlen h
  subst hb
  exact ⟨fun b' => rfl, rfl, ha, rfl⟩

/-- Witness for C2: a concrete 30-observation pair, accepted with hedge
ratio 1, whose spread statistics equal the mean/std of the ADF residual. -/
theorem spread_stats_use_test_residual_witness :
    ¬ (alignSeries seriesA seriesA).length < 30
    ∧ test_cointegration oracleEnv seriesA seriesA = Except.ok (1 / 100, 1, 1 / 50)
    ∧ oracleEnv.adfuller (testSpread seriesA seriesA) = Except.ok (1 / 50)
    ∧ calculate_spread_stats oracleEnv seriesA seriesA 1
        = (listMean (testSpread seriesA seriesA),
           sampleStd oracleEnv (testSpread seriesA seriesA)) := by
  refine ⟨by decide, by with_unfolding_all rfl, ?_, ?_⟩
  · exact (spread_stats_use_test_residual oracleEnv seriesA seriesA
      (1 / 100) 1 (1 / 50) (by decide) (by with_unfolding_all rfl)).2.2.1
  · exact (spread_stats_use_test_residual oracleEnv seriesA seriesA
      (1 / 100) 1 (1 / 50) (by decide) (by with_unfolding_all rfl)).2.2.2

/-- The OLS hedge ratio of the fixture pair (A, B). -/
def hedgeAB : ℚ :=
  olsCoef (alignedY seriesA seriesB) (alignedX seriesA seriesB)

/-- Claim C3: `find_pairs` evaluates exactly the `n * (n - 1) / 2` index
pairs `i < j` over the input sequence, visits them with the outer index
ascending and the inner index ascending, and returns the accepted records
in exactly that enumeration order (`filterMap` preserves it); no statistic
reorders the output. -/
theorem find_pairs_enumeration (env : StatsEnv) (pf : PairsFinder)
    (symbols : List String) :
    (pairIndices symbols.length).length = symbols.length * (symbols.length - 1) / 2
    ∧ (∀ i j : ℕ, (i, j) ∈ pairIndices symbols.length ↔ i < j ∧ j < symbols.length)
    ∧ (pairIndices symbols.length).Pairwise pairLexLt
    ∧ find_pairs env pf symbols
        = (pairIndices symbols.length).filterMap (tryPairAt env pf symbols) :=
  ⟨pairIndices_length symbols.length,
   fun i j => pairIndices_mem symbols.length i j,
   pairIndices_pairwise symbols.length,
   find_pairs_eq env pf symbols⟩

/-- Witness for C3: a three-symbol universe has three index pairs,
`(0, 1)` among them, and `find_pairs` is the order-preserving `filterMap`
over them. -/
theorem find_pairs_enumeration_witness :
    (pairIndices ([symA, symB, symC] : List String).length).length = 3
    ∧ (0, 1) ∈ pairIndices ([symA, symB, symC] : List String).length
    ∧ find_pairs oracleEnv pfBoundary [symA, symB, symC]
        = (pairIndices ([symA, symB, symC] : List String).length).filterMap
            (tryPairAt oracleEnv pfBoundary [symA, symB, symC]) := by
  refine ⟨?_, ?_, ?_⟩
  · exact (find_pairs_enumeration oracleEnv pfBoundary [symA, symB, symC]).1
  · exact ((find_pairs_enumeration oracleEnv pfBoundary [symA, symB, symC]).2.1 0 1).mpr
      (by decide)
  · exact (find_pairs_enumeration oracleEnv pfBoundary [symA, symB, symC]).2.2.2

/-- Claim C4: for a candidate pair whose evaluation raises no error, a
record is emitted if and only if both p-values are at most their
thresholds; both comparisons are inclusive. -/
theorem pair_emitted_iff (env : StatsEnv) (pf : PairsFinder) (s1 s2 : String)
    (p1 p2 : PSeries) (cp b ap : ℚ)
    (h1 : (pf.data_manager.get_price_series s1 closeCol).1 = Except.ok p1)
    (h2 : (pf.data_manager.get_price_series s2 closeCol).1 = Except.ok p2)
    (ht : test_cointegration env p1 p2 = Except.ok (cp, b, ap)) :
    (tryPair env pf s1 s2).isSome = true
      ↔ (cp ≤ pf.cointegration_threshold ∧ ap ≤ pf.adf_threshold) := by
  unfold tryPair evalPairBody
  simp only [h1, h2, ht]
  by_cases hc : cp ≤ pf.cointegration_threshold ∧ ap ≤ pf.adf_threshold
  · simp [hc]
  · simp [hc]

/-- Witness for C4: the fixture pair (A, B) sits exactly on both threshold
boundaries (coint p-value `1/100 = cointegration_threshold`, ADF p-value
`1/50 = adf_threshold`) and is emitted — the bounds are inclusive. -/
theorem pair_emitted_iff_witness :
    (tryPair oracleEnv pfBoundary symA symB).isSome = true :=
  (pair_emitted_iff oracleEnv pfBoundary symA symB seriesA seriesB
    (1 / 100) hedgeAB (1 / 50)
    (by with_unfolding_all rfl) (by with_unfolding_all rfl)
    (by with_unfolding_all rfl)).mpr
    ⟨le_of_eq (by with_unfolding_all rfl), le_of_eq (by with_unfolding_all rfl)⟩

/-- Claim C5: any exception inside a single pair's evaluation is caught at
the per-pair boundary and the pair is skipped; in particular, when the
data manager has no data for symbol C, a scan over `[A, B, C]` still
returns exactly the records of the (A, B) evaluation and `find_pairs`
itself raises nothing (it is a total function). -/
theorem per_pair_failures_skipped :
    (∀ (env : StatsEnv) (pf : PairsFinder) (s1 s2 err : String),
        evalPairBody env pf s1 s2 = Except.error err →
        tryPair env pf s1 s2 = none)
    ∧ ∀ (env : StatsEnv) (pf : PairsFinder) (err : String),
        (pf.data_manager.get_price_series symC closeCol).1 = Except.error err →
        find_pairs env pf [symA, symB, symC] = (tryPair env pf symA symB).toList := by
  constructor
  · intro env pf s1 s2 err h
    simp [tryPair, h]
  · intro env pf err hC
    have hAC : tryPair env pf symA symC = none := by
      unfold tryPair evalPairBody
      cases hA : (pf.data_manager.get_price_series symA closeCol).1 with
      | error e => simp
      | ok p1 => simp [hC]
    have hBC : tryPair env pf symB symC = none := by
      unfold tryPair evalPairBody
      cases hB : (pf.data_manager.get_price_series symB closeCol).1 with
      | error e => simp
      | ok p1 => simp [hC]
    rw [find_pairs_eq]
    have h3 : pairIndices ([symA, symB, symC] : List String).length
        = [(0, 1), (0, 2), (1, 2)] := by rfl
    rw [h3]
    cases hAB : tryPair env pf symA symB with
    | none => simp [List.filterMap_cons, tryPairAt, hAB, hAC, hBC]
    | some r => simp [List.filterMap_cons, tryPairAt, hAB, hAC, hBC]

/-- Witness for C5: with the fixture manager that has data only for A and
B, the (A, C) pair is skipped and the scan over `[A, B, C]` yields the
(A, B) records. -/
theorem per_pair_failures_skipped_witness :
    tryPair oracleEnv pfBoundary symA symC = none
    ∧ find_pairs oracleEnv pfBoundary [symA, symB, symC]
        = (tryPair oracleEnv pfBoundary symA symB).toList := by
  constructor
  · exact per_pair_failures_skipped.1 oracleEnv pfBoundary symA symC
      (notFoundMsg symC) (by with_unfolding_all rfl)
  · exact per_pair_failures_skipped.2 oracleEnv pfBoundary
      (notFoundMsg symC) (by with_unfolding_all rfl)

/-- Sum of squared residuals expands as a quadratic in the coefficient. -/
lemma sumSq_residual (y : List ℚ) : ∀ (x : List ℚ), y.length = x.length → ∀ c : ℚ,
    ((residualSpread y x c).map (fun r => r ^ 2)).sum
      = (y.map (fun v => v ^ 2)).sum
        - 2 * c * (List.zipWith (fun xi yi => xi * yi) x y).sum
        + c ^ 2 * (x.map (fun v => v ^ 2)).sum := by
  induction y with
  | nil =>
    intro x h c
    cases x with
    | nil => simp [residualSpread]
    | cons b xs => simp at h
  | cons a ys ih =>
    intro x h c
    cases x with
    | nil => simp at h
    | cons b xs =>
      have h' : ys.length = xs.length := by simpa using h
      simp only [residualSpread, List.zipWith_cons_cons, List.map_cons, List.sum_cons]
      rw [show List.zipWith (fun yi xi => yi - c * xi) ys xs = residualSpread ys xs c from rfl]
      rw [ih xs h' c]
      ring

/-- A sum of squares of rationals is nonnegative. -/
lemma sumSq_nonneg (l : List ℚ) : 0 ≤ (l.map (fun v => v ^ 2)).sum := by
  apply List.sum_nonneg
  intro v hv
  obtain ⟨a, _, rfl⟩ := List.mem_map.mp hv
  positivity

/-- Claim C6: for an aligned pair with at least 30 observations and a
nonzero regressor sum of squares, the hedge ratio returned by
`test_cointegration` is `sum(x*y) / sum(x*x)`, the ordinary-least-squares
coefficient of the regression of `y` on `x` through the origin, and it
minimizes the sum of squared residuals of `y - b * x` over all
coefficients. -/
theorem hedge_ratio_is_ols (env : StatsEnv) (p1 p2 : PSeries) (cp b ap : ℚ)
    (hlen : ¬ (alignSeries p1 p2).length < 30)
    (hxx : ((alignedX p1 p2).map (fun v => v ^ 2)).sum ≠ 0)
    (h : test_cointegration env p1 p2 = Except.ok (cp, b, ap)) :
    b = (List.zipWith (fun xi yi => xi * yi) (alignedX p1 p2) (alignedY p1 p2)).sum
        / ((alignedX p1 p2).map (fun v => v ^ 2)).sum
    ∧ ∀ c : ℚ,
        ((residualSpread (alignedY p1 p2) (alignedX p1 p2) b).map (fun r => r ^ 2)).sum
          ≤ ((residualSpread (alignedY p1 p2) (alignedX p1 p2) c).map (fun r => r ^ 2)).sum := by
  have hb : b = olsCoef (alignedY p1 p2) (alignedX p1 p2) :=
    (test_cointegration_ok_parts env p1 p2 cp b ap hlen h).1
  subst hb
  constructor
  · rfl
  · intro c
    have hlen2 : (alignedY p1 p2).length = (alignedX p1 p2).length := by
      simp [alignedY, alignedX]
    rw [sumSq_residual _ _ hlen2 c, sumSq_residual _ _ hlen2
      (olsCoef (alignedY p1 p2) (alignedX p1 p2))]
    have hS : 0 ≤ ((alignedX p1 p2).map (fun v => v ^ 2)).sum := sumSq_nonneg _
    have holc : olsCoef (alignedY p1 p2) (alignedX p1 p2)
        = (List.zipWith (fun xi yi => xi * yi) (alignedX p1 p2) (alignedY p1 p2)).sum
          / ((alignedX p1 p2).map (fun v => v ^ 2)).sum := rfl
    rw [holc]
    generalize hP : (List.zipWith (fun xi yi => xi * yi)
      (alignedX p1 p2) (alignedY p1 p2)).sum = P at *
    generalize hS2 : ((alignedX p1 p2).map (fun v => v ^ 2)).sum = S at *
    generalize hY : ((alignedY p1 p2).map (fun v => v ^ 2)).sum = Y at *
    have hSpos : 0 < S := lt_of_le_of_ne hS (Ne.symm hxx)
    have hdiff : (Y - 2 * c * P + c ^ 2 * S) - (Y - 2 * (P / S) * P + (P / S) ^ 2 * S)
        = S * (c - P / S) ^ 2 := by
      field_simp
      ring
    have hnn : 0 ≤ S * (c - P / S) ^ 2 := mul_nonneg hS (sq_nonneg _)
    linarith

/-- Witness for C6: the concrete identical pair has hedge ratio 1, which
minimizes the sum of squared residuals (shown at coefficient 2). -/
theorem hedge_ratio_is_ols_witness :
    (1 : ℚ) = (List.zipWith (fun xi yi => xi * yi)
        (alignedX seriesA seriesA) (alignedY seriesA seriesA)).sum
        / ((alignedX seriesA seriesA).map (fun v => v ^ 2)).sum
    ∧ ((residualSpread (alignedY seriesA seriesA) (alignedX seriesA seriesA) 1).map
        (fun r => r ^ 2)).sum
      ≤ ((residualSpread (alignedY seriesA seriesA) (alignedX seriesA seriesA) 2).map
        (fun r => r ^ 2)).sum := by
  have h := hedge_ratio_is_ols oracleEnv seriesA seriesA (1 / 100) 1 (1 / 50)
    (by decide) (by with_unfolding_all decide) (by with_unfolding_all rfl)
  exact ⟨h.1, h.2 2⟩

/-- A finder constructed with thresholds outside the documented `(0, 1]`
range: nothing rejects them. -/
def pfInvalid : PairsFinder :=
  PairsFinder.init mgrAB 2 2

/-- Counterexample to C7: constructing the finder with malformed
thresholds (both 2, outside `(0, 1]`) succeeds, and `find_pairs` runs the
whole scan with them and even emits the (A, B) record — nothing fails
before pairs are evaluated. -/
theorem invalid_thresholds_scan_runs :
    (find_pairs oracleEnv pfInvalid [symA, symB]).map (fun r => (r.symbol1, r.symbol2))
      = [(symA, symB)] := by
  with_unfolding_all rfl

/-- Claim C7 as amended: no eager validation exists anywhere —
`PairsFinder.__init__` stores whatever thresholds it is given, unchecked,
and `find_pairs` runs the full pair enumeration with them regardless of
their values (the observation floor is the hardcoded constant 30 inside
`test_cointegration` and is not configurable). -/
theorem thresholds_not_validated (env : StatsEnv) (dm : DataManager) (c a : ℚ)
    (symbols : List String) :
    (PairsFinder.init dm c a).data_manager = dm
    ∧ (PairsFinder.init dm c a).cointegration_threshold = c
    ∧ (PairsFinder.init dm c a).adf_threshold = a
    ∧ find_pairs env (PairsFinder.init dm c a) symbols
        = (pairIndices symbols.length).filterMap
            (tryPairAt env (PairsFinder.init dm c a) symbols) :=
  ⟨rfl, rfl, rfl, find_pairs_eq env (PairsFinder.init dm c a) symbols⟩

/-- A record produced by `tryPair` carries exactly the two symbols it was
called with. -/
lemma tryPair_symbols {env : StatsEnv} {pf : PairsFinder} {s1 s2 : String}
    {r : TradingPair} (h : tryPair env pf s1 s2 = some r) :
    r.symbol1 = s1 ∧ r.symbol2 = s2 := by
  unfold tryPair at h
  cases hb : evalPairBody env pf s1 s2 with
  | error e => rw [hb] at h; simp at h
  | ok ro =>
    rw [hb] at h
    simp at h
    subst h
    unfold evalPairBody at hb
    split at hb
    · simp at hb
    · split at hb
      · simp at hb
      · split at hb
        · simp at hb
        · split at hb
          · simp only [Except.ok.injEq, Option.some.injEq] at hb
            rw [← hb]
            exact ⟨rfl, rfl⟩
          · simp at hb

/-- Indexing with a default is injective on in-range indexes of a
duplicate-free list. -/
lemma getD_inj_of_nodup {symbols : List String} (hnd : symbols.Nodup) {i j : ℕ}
    (hi : i < symbols.length) (hj : j < symbols.length)
    (h : symbols.getD i defaultSym = symbols.getD j defaultSym) : i = j := by
  rw [List.getD_eq_getElem symbols defaultSym hi,
    List.getD_eq_getElem symbols defaultSym hj] at h
  exact (hnd.getElem_inj_iff).mp h

/-- Counterexample to C8: with the duplicated input `[A, B, A]` the scan
emits the record (A, A) — equal symbols — and the unordered pair {A, B}
twice, once as (A, B) and once as (B, A). -/
theorem duplicate_input_duplicate_pairs :
    (find_pairs oracleEnv pfBoundary [symA, symB, symA]).map
        (fun r => (r.symbol1, r.symbol2))
      = [(symA, symB), (symA, symA), (symB, symA)] := by
  with_unfolding_all rfl

/-- Claim C8 as amended: provided the input symbol list has no duplicate
entries, `find_pairs` never returns a record with equal symbols and never
returns the same unordered symbol pair twice. -/
theorem no_duplicate_pairs_of_nodup (env : StatsEnv) (pf : PairsFinder)
    (symbols : List String) (hnd : symbols.Nodup) :
    (∀ r ∈ find_pairs env pf symbols, r.symbol1 ≠ r.symbol2)
    ∧ (find_pairs env pf symbols).Pairwise (fun r1 r2 =>
        ¬(r1.symbol1 = r2.symbol1 ∧ r1.symbol2 = r2.symbol2)
        ∧ ¬(r1.symbol1 = r2.symbol2 ∧ r1.symbol2 = r2.symbol1)) := by
  rw [find_pairs_eq env pf symbols]
  constructor
  · intro r hr
    obtain ⟨ij, hij, hsome⟩ := List.mem_filterMap.mp hr
    obtain ⟨i, j⟩ := ij
    obtain ⟨hij1, hij2⟩ := (pairIndices_mem symbols.length i j).mp hij
    simp only [tryPairAt] at hsome
    obtain ⟨hs1, hs2⟩ := tryPair_symbols hsome
    rw [hs1, hs2]
    intro heq
    have := getD_inj_of_nodup hnd (by omega) (by omega) heq
    omega
  · have hp2 : (pairIndices symbols.length).Pairwise (fun p q =>
        ∀ r1, tryPairAt env pf symbols p = some r1 →
        ∀ r2, tryPairAt env pf symbols q = some r2 →
        (¬(r1.symbol1 = r2.symbol1 ∧ r1.symbol2 = r2.symbol2)
         ∧ ¬(r1.symbol1 = r2.symbol2 ∧ r1.symbol2 = r2.symbol1))) := by
      refine (pairIndices_pairwise symbols.length).imp_of_mem ?_
      intro p q hpmem hqmem hlex r1 h1 r2 h2
      obtain ⟨i1, j1⟩ := p
      obtain ⟨i2, j2⟩ := q
      obtain ⟨hb1, hb1'⟩ := (pairIndices_mem symbols.length i1 j1).mp hpmem
      obtain ⟨hb2, hb2'⟩ := (pairIndices_mem symbols.length i2 j2).mp hqmem
      simp only [tryPairAt] at h1 h2
      obtain ⟨ha1, ha1'⟩ := tryPair_symbols h1
      obtain ⟨ha2, ha2'⟩ := tryPair_symbols h2
      rw [ha1, ha1', ha2, ha2']
      rcases hlex with hlt | ⟨heq1, hlt2⟩
      · constructor
        · rintro ⟨e1, e2⟩
          have := getD_inj_of_nodup hnd (by omega) (by omega) e1
          omega
        · rintro ⟨e1, e2⟩
          have hi1 := getD_inj_of_nodup hnd (by omega) (by omega) e1
          have hi2 := getD_inj_of_nodup hnd (by omega) (by omega) e2
          omega
      · constructor
        · rintro ⟨e1, e2⟩
          have := getD_inj_of_nodup hnd (by omega) (by omega) e2
          omega
        · rintro ⟨e1, e2⟩
          have hi1 := getD_inj_of_nodup hnd (by omega) (by omega) e1
          have hi2 := getD_inj_of_nodup hnd (by omega) (by omega) e2
          omega
    exact List.Pairwise.filterMap _
      (fun p q hR r1 hr1 r2 hr2 => hR r1 (Option.mem_def.mp hr1) r2 (Option.mem_def.mp hr2))
      hp2

/-- Witness for C8 (amended): with the duplicate-free input `[A, B]` the
scan output is pairwise free of repeated unordered symbol pairs. -/
theorem no_duplicate_pairs_of_nodup_witness :
    ([symA, symB] : List String).Nodup
    ∧ (find_pairs oracleEnv pfBoundary [symA, symB]).Pairwise (fun r1 r2 =>
        ¬(r1.symbol1 = r2.symbol1 ∧ r1.symbol2 = r2.symbol2)
        ∧ ¬(r1.symbol1 = r2.symbol2 ∧ r1.symbol2 = r2.symbol1)) :=
  ⟨by decide,
   (no_duplicate_pairs_of_nodup oracleEnv pfBoundary [symA, symB] (by decide)).2⟩

/-- Claim C9: `get_price_series` raises the symbol-not-found `ValueError`
exactly when the symbol is absent from the manager's stored data; when the
symbol is present it returns that symbol's stored price column and raises
nothing; the stored data is unchanged in either case. -/
theorem get_price_series_spec (mgr : DataManager) (symbol price_type : String) :
    ((mgr.get_price_series symbol price_type).1 = Except.error (notFoundMsg symbol)
        ↔ lookupData mgr.data symbol = none)
    ∧ (∀ f, lookupData mgr.data symbol = some f →
        (mgr.get_price_series symbol price_type).1 = Except.ok (f.col price_type))
    ∧ (mgr.get_price_series symbol price_type).2 = mgr := by
  unfold DataManager.get_price_series
  cases h : lookupData mgr.data symbol with
  | none => simp
  | some f => simp

/-- Witness for C9: the fixture manager answers for the stored symbol A
and raises for the never-fetched symbol Z, leaving its state unchanged. -/
theorem get_price_series_spec_witness :
    (mgrAB.get_price_series symZ closeCol).1 = Except.error (notFoundMsg symZ)
    ∧ (mgrAB.get_price_series symA closeCol).1 = Except.ok (frameA.col closeCol)
    ∧ (mgrAB.get_price_series symA closeCol).2 = mgrAB := by
  refine ⟨?_, ?_, ?_⟩
  · exact (get_price_series_spec mgrAB symZ closeCol).1.mpr (by with_unfolding_all rfl)
  · exact (get_price_series_spec mgrAB symA closeCol).2.1 frameA (by with_unfolding_all rfl)
  · exact (get_price_series_spec mgrAB symA closeCol).2.2

/-- The success condition of one fetch: the provider answers without
raising and the frame is non-empty. -/
def fetchOkB (provider : Provider) (s : String) : Bool :=
  match provider s with
  | Except.ok frame => !frame.isEmptyFrame
  | Except.error _ => false

/-- Dict overwrite keeps the key set. -/
lemma hasSym_map_overwrite (d : List (String × Frame)) (t : String) (f : Frame)
    (s : String) :
    hasSym (d.map (fun p => if p.1 == t then (t, f) else p)) s = hasSym d s := by
  induction d with
  | nil => rfl
  | cons p ps ih =>
    simp only [hasSym, List.map_cons, List.any_cons] at ih ⊢
    rw [ih]
    by_cases hpt : p.1 == t
    · have hp1 : p.1 = t := by simpa using hpt
      simp [hpt, hp1]
    · simp [hpt]

/-- Dict assignment adds exactly the assigned key. -/
lemma hasSym_storeEntry_iff (d : List (String × Frame)) (t : String) (f : Frame)
    (s : String) :
    hasSym (storeEntry d t f) s = true ↔ (hasSym d s = true ∨ s = t) := by
  unfold storeEntry
  by_cases hd : hasSym d t
  · rw [if_pos hd, hasSym_map_overwrite]
    constructor
    · exact Or.inl
    · rintro (h | rfl)
      · exact h
      · exact hd
  · rw [if_neg hd]
    unfold hasSym
    rw [List.any_append]
    simp only [List.any_cons, List.any_nil, Bool.or_false, Bool.or_eq_true,
      beq_iff_eq]
    constructor
    · rintro (h | h)
      · exact Or.inl h
      · exact Or.inr h.symm
    · rintro (h | h)
      · exact Or.inl h
      · exact Or.inr h.symm

/-- One fetch-loop iteration adds exactly the fetched symbol when the
fetch succeeds with data, and nothing otherwise. -/
lemma hasSym_fetchOne_iff (provider : Provider) (d : List (String × Frame))
    (t s : String) :
    hasSym (fetchOne provider d t) s = true
      ↔ (hasSym d s = true ∨ (s = t ∧ fetchOkB provider t = true)) := by
  unfold fetchOne fetchOkB
  cases hp : provider t with
  | error e => simp
  | ok frame =>
    by_cases he : frame.isEmptyFrame
    · simp [he]
    · simp [he, hasSym_storeEntry_iff]

/-- The fetch loop accumulates exactly the successfully fetched symbols on
top of the prior store. -/
lemma hasSym_fetch_fold_iff (provider : Provider) (symbols : List String) :
    ∀ (d : List (String × Frame)) (s : String),
    hasSym (symbols.foldl (fetchOne provider) d) s = true
      ↔ (hasSym d s = true ∨ ∃ t ∈ symbols, s = t ∧ fetchOkB provider t = true) := by
  induction symbols with
  | nil =>
    intro d s
    simp
  | cons t ts ih =>
    intro d s
    rw [List.foldl_cons, ih, hasSym_fetchOne_iff]
    constructor
    · rintro ((h | ⟨hst, hok⟩) | ⟨u, hu, hsu, hok⟩)
      · exact Or.inl h
      · exact Or.inr ⟨t, List.mem_cons_self t ts, hst, hok⟩
      · exact Or.inr ⟨u, List.mem_cons_of_mem t hu, hsu, hok⟩
    · rintro (h | ⟨u, hu, hsu, hok⟩)
      · exact Or.inl (Or.inl h)
      · rcases List.mem_cons.mp hu with he | hu'
        · exact Or.inl (Or.inr ⟨by rw [hsu, he], by rw [← he]; exact hok⟩)
        · exact Or.inr ⟨u, hu', hsu, hok⟩

/-- Claim C10: `fetch_stock_data` returns the manager's entire accumulated
mapping (`self.data` itself, including symbols from earlier calls), a
symbol is present in it exactly when it was already stored or was fetched
successfully with data in this call, and the call is total — a failed
symbol never raises. -/
theorem fetch_returns_accumulated (provider : Provider) (mgr : DataManager)
    (symbols : List String) :
    (mgr.fetch_stock_data provider symbols).2
        = ((mgr.fetch_stock_data provider symbols).1).data
    ∧ ∀ s : String,
        hasSym (mgr.fetch_stock_data provider symbols).2 s = true
          ↔ (hasSym mgr.data s = true
             ∨ ∃ t ∈ symbols, s = t ∧ fetchOkB provider t = true) := by
  refine ⟨rfl, ?_⟩
  intro s
  have h := hasSym_fetch_fold_iff provider symbols mgr.data s
  constructor
  · intro hh
    rcases h.mp hh with hbase | hex
    · exact Or.inl hbase
    · exact Or.inr hex
  · intro hh
    rcases hh with hbase | hex
    · exact h.mpr (Or.inl hbase)
    · exact h.mpr (Or.inr hex)

/-- A fetch error message for the fixture provider. -/
def netErrMsg : String := "network error"

/-- Fixture start date. -/
def startD : String := "2019-01-01"

/-- Fixture end date. -/
def endD : String := "2024-01-01"

/-- A fresh fixture manager with an empty store. -/
def mgr0 : DataManager := DataManager.init startD endD

/-- A fixture provider: raises for Z, has data for A and B, and returns an
empty frame for everything else. -/
def provider0 : Provider := fun s =>
  if s == symZ then Except.error netErrMsg
  else if s == symA then Except.ok frameA
  else if s == symB then Except.ok frameB
  else Except.ok ⟨[closeCol], []⟩

/-- Witness for C10: after fetching `[A, Z, B]` on a fresh manager the
returned mapping contains A and not the failed Z. -/
theorem fetch_returns_accumulated_witness :
    hasSym ((mgr0.fetch_stock_data provider0 [symA, symZ, symB]).2) symA = true
    ∧ ¬ hasSym ((mgr0.fetch_stock_data provider0 [symA, symZ, symB]).2) symZ = true := by
  constructor
  · exact ((fetch_returns_accumulated provider0 mgr0 [symA, symZ, symB]).2 symA).mpr
      (Or.inr ⟨symA, by simp, rfl, by with_unfolding_all rfl⟩)
  · intro h
    rcases ((fetch_returns_accumulated provider0 mgr0 [symA, symZ, symB]).2 symZ).mp h with
      hbase | ⟨t, ht, rfl, hok⟩
    · exact absurd hbase (by decide)
    · exact absurd hok (by with_unfolding_all decide)

end PairsBot
